import Mathlib

/-!
Verification of the `replace-drop` crate: a wrapper `ReplaceDrop<T>` around
`ManuallyDrop<T>` whose own destructor invokes a substituted finalizer
(`ReplaceDropImpl::drop`) on the held value instead of the value's normal
automatic destructor (`Drop::drop`).

The embedding models Rust's destruction machinery as event traces:
dropping a value emits a `DropEvent` recording which cleanup routine the
runtime invokes on which value, followed by the effects of that routine's
body. The key library facts used by the source are embedded directly:
`ManuallyDrop`'s drop glue never touches its contents, and `mem::forget`
(performed inside `into_inner`) suppresses the guard's drop glue, which we
model through an explicit lifecycle state machine.
-/

set_option autoImplicit false

namespace ReplaceDropCrate

/-- Events recording which cleanup routine the Rust runtime invokes on which
value: `finalize v` is an invocation of `ReplaceDropImpl::drop` on `v`
(the substituted finalizer), `normalDrop v` an invocation of `Drop::drop`
(the normal automatic destructor) on `v`. -/
inductive DropEvent (V : Type) where
  | finalize (v : V)
  | normalDrop (v : V)
  deriving DecidableEq, Repr

/-- Storage mode from `std::mem`: `ManuallyDrop<T>` holds a `T` whose drop
glue is suppressed. -/
structure ManuallyDrop (T : Type) where
  value : T
  deriving DecidableEq, Repr

/-- Constructor `ManuallyDrop::new`. -/
def ManuallyDrop.new {T : Type} (val : T) : ManuallyDrop T := ⟨val⟩

/-- Operation `ManuallyDrop::take`: moves the contained value out of the slot. -/
def ManuallyDrop.take {T : Type} (slot : ManuallyDrop T) : T := slot.value

/-- Drop glue of `ManuallyDrop<T>`: by the contract of `std::mem::ManuallyDrop`,
destroying the slot performs no cleanup of the contained value at all. -/
def ManuallyDrop.dropGlue {T : Type} (_ : ManuallyDrop T) : List (DropEvent T) := []

/-- The wrapper from `src/lib.rs`:
`pub struct ReplaceDrop<T: ReplaceDropImpl>(ManuallyDrop<T>);` -/
structure ReplaceDrop (T : Type) where
  inner : ManuallyDrop T
  deriving DecidableEq, Repr

/-- Constructor `ReplaceDrop::new`: `ReplaceDrop(ManuallyDrop::new(val))`. -/
def ReplaceDrop.new {T : Type} (val : T) : ReplaceDrop T :=
  ⟨ManuallyDrop.new val⟩

/-- Constructor `ReplaceDrop::new_from_manually_drop`: `ReplaceDrop(val)`. -/
def ReplaceDrop.new_from_manually_drop {T : Type} (val : ManuallyDrop T) :
    ReplaceDrop T :=
  ⟨val⟩

/-- Operation `ReplaceDrop::into_inner`: `ManuallyDrop::take(&mut self.0)`
followed by `std::mem::forget(self)`. The returned value is the taken
contents; the `forget` (suppression of the guard's drop glue) is captured by
the lifecycle state machine below, where extraction emits no events. -/
def ReplaceDrop.into_inner {T : Type} (g : ReplaceDrop T) : T :=
  ManuallyDrop.take g.inner

/-- Operation `Deref::deref` for `ReplaceDrop<T>`: `&self.0`, which through
`ManuallyDrop`'s own `Deref` is a reference to the held value. -/
def ReplaceDrop.deref {T : Type} (g : ReplaceDrop T) : T := g.inner.value

/-- A mutation performed through `DerefMut::deref_mut` for `ReplaceDrop<T>`:
`&mut self.0` exposes the held value in place, so applying `f` through the
guard rewrites the held value to `f` of it. -/
def ReplaceDrop.modify {T : Type} (g : ReplaceDrop T) (f : T → T) :
    ReplaceDrop T :=
  ⟨⟨f g.inner.value⟩⟩

/-- The derived `Clone` for `ReplaceDrop<T>` clones the `ManuallyDrop` slot,
which clones the held value with `T`'s clone (modeled by `cloneT`), producing
a fresh guard over the duplicate. -/
def ReplaceDrop.clone {T : Type} (cloneT : T → T) (g : ReplaceDrop T) :
    ReplaceDrop T :=
  ⟨⟨cloneT g.inner.value⟩⟩

/-- Effect model for a wrapped type: the trace of cleanup invocations that
the body of the user's `ReplaceDropImpl::drop` performs on a given value
(`rdDropBody`), and the trace that the rest of the value's normal drop glue
performs after the `Drop::drop` invocation itself, i.e. the effects of the
`Drop::drop` body together with the automatic recursive dropping of the
value's fields (`dropGlueTail`). -/
structure DropModel (V : Type) where
  rdDropBody : V → List (DropEvent V)
  dropGlueTail : V → List (DropEvent V)

/-- Dropping a bare (unwrapped) value: the runtime invokes `Drop::drop` on it
and then the rest of its drop glue (its `Drop::drop` body effects and the
automatic dropping of its fields) runs. -/
def dropBare {V : Type} (m : DropModel V) (v : V) : List (DropEvent V) :=
  DropEvent.normalDrop v :: m.dropGlueTail v

/-- Drop glue of `ReplaceDrop<T>` from `impl<T: ReplaceDropImpl> Drop for
ReplaceDrop<T>`: its `Drop::drop` body invokes `ReplaceDropImpl::drop` on
`self.0.deref_mut()` (the held value), whose body effects follow; afterwards
the field `self.0 : ManuallyDrop<T>` is dropped, which by
`ManuallyDrop.dropGlue` contributes nothing. -/
def ReplaceDrop.dropGlue {T : Type} (m : DropModel T) (g : ReplaceDrop T) :
    List (DropEvent T) :=
  (DropEvent.finalize g.inner.value :: m.rdDropBody g.inner.value) ++
    g.inner.dropGlue

/-- Constructing a guard with `ReplaceDrop::new` and letting it go out of
scope: the guard's drop glue runs on the fresh guard. -/
def newThenDrop {T : Type} (m : DropModel T) (v : T) : List (DropEvent T) :=
  (ReplaceDrop.new v).dropGlue m

/-- The free function `replace_drop` from `src/lib.rs`:
`let _ = ReplaceDrop::new(val);` — the temporary guard is dropped at the end
of the statement, so the call's effect is the guard's drop glue. -/
def replace_drop {T : Type} (m : DropModel T) (val : T) : List (DropEvent T) :=
  (ReplaceDrop.new val).dropGlue m

/-- Counts occurrences of a given event in a trace. -/
def countEv {V : Type} [DecidableEq V] (e : DropEvent V) :
    List (DropEvent V) → Nat
  | [] => 0
  | x :: xs => (if x = e then 1 else 0) + countEv e xs

@[simp]
theorem countEv_nil {V : Type} [DecidableEq V] (e : DropEvent V) :
    countEv e [] = 0 := rfl

@[simp]
theorem countEv_cons {V : Type} [DecidableEq V] (e x : DropEvent V)
    (xs : List (DropEvent V)) :
    countEv e (x :: xs) = (if x = e then 1 else 0) + countEv e xs := rfl

theorem countEv_append {V : Type} [DecidableEq V] (e : DropEvent V)
    (xs ys : List (DropEvent V)) :
    countEv e (xs ++ ys) = countEv e xs + countEv e ys := by
  induction xs with
  | nil => simp
  | cons x xs ih => simp [ih, Nat.add_assoc]

theorem countEv_eq_zero_of_not_mem {V : Type} [DecidableEq V]
    {e : DropEvent V} {xs : List (DropEvent V)} (h : e ∉ xs) :
    countEv e xs = 0 := by
  induction xs with
  | nil => rfl
  | cons x xs ih =>
    simp only [List.mem_cons, not_or] at h
    simp [Ne.symm h.1, ih h.2]

/-- A concrete effect model in which every finalizer body and drop-glue tail
is empty, over values of type `Nat`; used to witness the generic theorems at
concrete inputs. -/
def silentModel : DropModel Nat := ⟨fun _ => [], fun _ => []⟩

/-- Tests whether an event is an invocation of the substituted finalizer. -/
def DropEvent.isFinalize {V : Type} : DropEvent V → Bool
  | .finalize _ => true
  | .normalDrop _ => false

/-- Counts the invocations of the substituted finalizer in a trace,
regardless of which value they act on. -/
def finCount {V : Type} (tr : List (DropEvent V)) : Nat :=
  (tr.filter DropEvent.isFinalize).length

@[simp]
theorem finCount_nil {V : Type} : finCount ([] : List (DropEvent V)) = 0 := rfl

@[simp]
theorem finCount_cons {V : Type} (x : DropEvent V) (xs : List (DropEvent V)) :
    finCount (x :: xs) =
      (if DropEvent.isFinalize x then 1 else 0) + finCount xs := by
  simp only [finCount, List.filter_cons]
  split <;> simp [Nat.add_comm]

theorem finCount_append {V : Type} (xs ys : List (DropEvent V)) :
    finCount (xs ++ ys) = finCount xs + finCount ys := by
  simp [finCount]

/-- Lifecycle phase of one `ReplaceDrop<T>` instance, as in the spec's state
machine: `holding` (guard alive, carrying the discharge obligation),
`discharged` (its destructor ran), `extracted` (`into_inner` consumed it and
`mem::forget` neutralized its destructor). -/
inductive Phase (T : Type) where
  | holding (g : ReplaceDrop T)
  | discharged
  | extracted
  deriving DecidableEq

/-- Operations Rust's ownership discipline allows on a live guard: dropping
it, consuming it with `into_inner`, or mutating the held value through
`DerefMut`. -/
inductive GuardOp (T : Type) where
  | dropOp
  | extractOp
  | mutateOp (f : T → T)

/-- One lifecycle step. Dropping a held guard runs its drop glue and ends in
`discharged`; `into_inner` on a held guard returns the value, emits nothing
(the `mem::forget` suppresses the guard's drop glue) and ends in `extracted`;
mutation through `DerefMut` keeps holding. Rust's move semantics permit no
operation on a guard that was already dropped or consumed, so `discharged`
and `extracted` admit no step. -/
def step {T : Type} (m : DropModel T) :
    Phase T → GuardOp T → Option (Phase T × List (DropEvent T))
  | .holding g, .dropOp => some (.discharged, g.dropGlue m)
  | .holding _, .extractOp => some (.extracted, [])
  | .holding g, .mutateOp f => some (.holding (g.modify f), [])
  | .discharged, _ => none
  | .extracted, _ => none

/-- Runs a sequence of lifecycle operations, accumulating the emitted trace;
fails if any operation is impossible in its phase. -/
def run {T : Type} (m : DropModel T) :
    Phase T → List (GuardOp T) → Option (Phase T × List (DropEvent T))
  | p, [] => some (p, [])
  | p, op :: ops =>
    match step m p op with
    | none => none
    | some (p1, tr1) =>
      match run m p1 ops with
      | none => none
      | some (p2, tr2) => some (p2, tr1 ++ tr2)

/-- Weight of a phase for the discharge-counting invariant: `discharged`
accounts for one finalizer invocation, the other phases for none. -/
def Phase.weight {T : Type} : Phase T → Nat
  | .holding _ => 0
  | .discharged => 1
  | .extracted => 0

/-- Helper invariant: over any run whose finalizer bodies perform no further
finalizer invocations, the number of finalizer invocations emitted equals
the discharge weight gained between the start and end phases. -/
theorem run_finCount_eq_weight {T : Type} (m : DropModel T)
    (hm : ∀ v, finCount (m.rdDropBody v) = 0) :
    ∀ (ops : List (GuardOp T)) (p0 p : Phase T) (tr : List (DropEvent T)),
      run m p0 ops = some (p, tr) →
      finCount tr + p0.weight = p.weight := by
  intro ops
  induction ops with
  | nil =>
    intro p0 p tr h
    simp only [run] at h
    cases h
    simp
  | cons op ops ih =>
    intro p0 p tr h
    cases hstep : step m p0 op with
    | none =>
      simp only [run, hstep] at h
      exact Option.noConfusion h
    | some res =>
      obtain ⟨p1, tr1⟩ := res
      simp only [run, hstep] at h
      cases hrun : run m p1 ops with
      | none =>
        simp only [hrun] at h
        exact Option.noConfusion h
      | some res2 =>
        obtain ⟨p2, tr2⟩ := res2
        simp only [hrun, Option.some_inj] at h
        have step_weight : finCount tr1 + p0.weight = p1.weight := by
          cases p0 with
          | holding g =>
            cases op with
            | dropOp =>
              simp only [step, Option.some_inj] at hstep
              cases hstep
              simp [ReplaceDrop.dropGlue, ManuallyDrop.dropGlue,
                finCount_append, DropEvent.isFinalize, Phase.weight,
                hm g.inner.value]
            | extractOp =>
              simp only [step, Option.some_inj] at hstep
              cases hstep
              simp [Phase.weight]
            | mutateOp f =>
              simp only [step, Option.some_inj] at hstep
              cases hstep
              simp [Phase.weight]
          | discharged => simp [step] at hstep
          | extracted => simp [step] at hstep
        have tail := ih p1 p2 tr2 hrun
        obtain ⟨rfl, rfl⟩ := Prod.mk.injEq .. ▸ h
        rw [finCount_append]
        omega

/-- C2: `into_inner` on a guard holding `v` returns exactly `v` and consumes
the guard; the extraction emits no cleanup invocation, the neutralized
remnants admit no further lifecycle step (so the substituted finalizer is
never invoked by them), and dropping the returned value afterwards invokes
its normal automatic destructor first; the extraction is total
(`run` succeeds with no error case). -/
theorem into_inner_returns_value_and_cancels {T : Type} (m : DropModel T)
    (v : T) :
    (ReplaceDrop.new v).into_inner = v ∧
      run m (Phase.holding (ReplaceDrop.new v)) [GuardOp.extractOp] =
        some (Phase.extracted, []) ∧
      (∀ op : GuardOp T, step m Phase.extracted op = none) ∧
      (dropBare m v).head? = some (DropEvent.normalDrop v) := by
  refine ⟨rfl, rfl, ?_, rfl⟩
  intro op
  cases op <;> rfl

/-- C3: the three-state lifecycle machine. Starting from `holding`, any
legal run discharges the obligation at most once; it ends `discharged`
exactly when the trace contains one finalizer invocation, ends `extracted`
or still `holding` exactly when it contains none, and `discharged` and
`extracted` admit no further step, assuming the user finalizer bodies
perform no finalizer invocations of their own. -/
theorem guard_lifecycle_state_machine {T : Type} (m : DropModel T)
    (g : ReplaceDrop T) (ops : List (GuardOp T)) (p : Phase T)
    (tr : List (DropEvent T))
    (hm : ∀ v, finCount (m.rdDropBody v) = 0)
    (hrun : run m (Phase.holding g) ops = some (p, tr)) :
    finCount tr ≤ 1 ∧
      (p = Phase.discharged ↔ finCount tr = 1) ∧
      (p = Phase.extracted → finCount tr = 0) ∧
      (∀ gq, p = Phase.holding gq → finCount tr = 0) ∧
      (∀ op, step m Phase.discharged op = none) ∧
      (∀ op, step m Phase.extracted op = none) := by
  have h := run_finCount_eq_weight m hm ops (Phase.holding g) p tr hrun
  have hw : finCount tr = p.weight := by
    simpa [Phase.weight] using h
  refine ⟨?_, ?_, ?_, ?_, ?_, ?_⟩
  · cases p <;> simp [Phase.weight] at hw <;> omega
  · constructor
    · intro hp
      subst hp
      simpa [Phase.weight] using hw
    · intro h1
      cases p with
      | holding gq => simp [Phase.weight] at hw; omega
      | discharged => rfl
      | extracted => simp [Phase.weight] at hw; omega
  · intro hp
    subst hp
    simpa [Phase.weight] using hw
  · intro gq hp
    subst hp
    simpa [Phase.weight] using hw
  · intro op
    cases op <;> rfl
  · intro op
    cases op <;> rfl

/-- Witness for C3: a concrete run that constructs a guard over `0` under
the silent model and drops it, ending discharged with one finalizer
invocation. -/
theorem guard_lifecycle_state_machine_witness :
    finCount [DropEvent.finalize (0 : Nat)] ≤ 1 ∧
      ((Phase.discharged : Phase Nat) = Phase.discharged ↔
        finCount [DropEvent.finalize (0 : Nat)] = 1) ∧
      ((Phase.discharged : Phase Nat) = Phase.extracted →
        finCount [DropEvent.finalize (0 : Nat)] = 0) ∧
      (∀ gq, (Phase.discharged : Phase Nat) = Phase.holding gq →
        finCount [DropEvent.finalize (0 : Nat)] = 0) ∧
      (∀ op, step silentModel Phase.discharged op = none) ∧
      (∀ op, step silentModel Phase.extracted op = none) :=
  guard_lifecycle_state_machine silentModel (ReplaceDrop.new 0)
    [GuardOp.dropOp] Phase.discharged [DropEvent.finalize 0]
    (fun _ => rfl) rfl

/-- C1: constructing a guard with `ReplaceDrop::new v` and letting it go out
of scope invokes the substituted finalizer `ReplaceDropImpl::drop` on the
held value exactly once and never invokes the value's normal automatic
destructor `Drop::drop`, provided the user-supplied finalizer body does not
itself re-invoke either routine on that value. -/
theorem new_then_drop_finalizes_exactly_once {T : Type} [DecidableEq T]
    (m : DropModel T) (v : T)
    (hfin : DropEvent.finalize v ∉ m.rdDropBody v)
    (hnorm : DropEvent.normalDrop v ∉ m.rdDropBody v) :
    countEv (DropEvent.finalize v) (newThenDrop m v) = 1 ∧
      countEv (DropEvent.normalDrop v) (newThenDrop m v) = 0 := by
  unfold newThenDrop ReplaceDrop.dropGlue ReplaceDrop.new ManuallyDrop.new
  simp [ManuallyDrop.dropGlue, countEv_append,
    countEv_eq_zero_of_not_mem hfin, countEv_eq_zero_of_not_mem hnorm]

/-- Witness for C1 at the concrete silent model and value `0`. -/
theorem new_then_drop_finalizes_exactly_once_witness :
    countEv (DropEvent.finalize 0) (newThenDrop silentModel 0) = 1 ∧
      countEv (DropEvent.normalDrop 0) (newThenDrop silentModel 0) = 0 :=
  new_then_drop_finalizes_exactly_once silentModel 0
    (by simp [silentModel]) (by simp [silentModel])

/-- C4: the guard's destructor only performs the finalizer invocation and
the finalizer body's own effects — the `ManuallyDrop` storage suppresses all
automatic cleanup — so if the finalizer body does not itself invoke the
normal destructor of a given field value, that field's normal destructor
never runs as a side effect of dropping the guard. -/
theorem guard_drop_frames_fields {T : Type} (m : DropModel T) (v fld : T)
    (hf : DropEvent.normalDrop fld ∉ m.rdDropBody v) :
    DropEvent.normalDrop fld ∉ newThenDrop m v ∧
      ∀ e ∈ newThenDrop m v, e = DropEvent.finalize v ∨ e ∈ m.rdDropBody v := by
  constructor
  · intro hmem
    simp only [newThenDrop, ReplaceDrop.dropGlue, ReplaceDrop.new,
      ManuallyDrop.new, ManuallyDrop.dropGlue, List.append_nil,
      List.mem_cons] at hmem
    rcases hmem with h | h
    · exact DropEvent.noConfusion h
    · exact hf h
  · intro e he
    simp only [newThenDrop, ReplaceDrop.dropGlue, ReplaceDrop.new,
      ManuallyDrop.new, ManuallyDrop.dropGlue, List.append_nil,
      List.mem_cons] at he
    exact he

/-- Witness for C4 at the silent model: the finalizer body over value `0` is
empty, so the normal destructor of the field value `1` never appears in the
guard's drop trace. -/
theorem guard_drop_frames_fields_witness :
    DropEvent.normalDrop 1 ∉ newThenDrop silentModel 0 ∧
      ∀ e ∈ newThenDrop silentModel 0,
        e = DropEvent.finalize 0 ∨ e ∈ silentModel.rdDropBody 0 :=
  guard_drop_frames_fields silentModel 0 1 (by simp [silentModel])

/-- C7: the convenience function `replace_drop` is observably equivalent to
constructing a guard with `ReplaceDrop::new` and immediately discarding it,
and it runs the substituted finalizer on the value exactly once, provided
the finalizer body does not itself re-invoke the finalizer on that value. -/
theorem replace_drop_equiv_new_then_drop {T : Type} [DecidableEq T]
    (m : DropModel T) (v : T)
    (hfin : DropEvent.finalize v ∉ m.rdDropBody v) :
    replace_drop m v = newThenDrop m v ∧
      countEv (DropEvent.finalize v) (replace_drop m v) = 1 := by
  refine ⟨rfl, ?_⟩
  unfold replace_drop ReplaceDrop.dropGlue ReplaceDrop.new ManuallyDrop.new
  simp [ManuallyDrop.dropGlue, countEv_append,
    countEv_eq_zero_of_not_mem hfin]

/-- Witness for C7 at the silent model and value `0`. -/
theorem replace_drop_equiv_new_then_drop_witness :
    replace_drop silentModel 0 = newThenDrop silentModel 0 ∧
      countEv (DropEvent.finalize 0) (replace_drop silentModel 0) = 1 :=
  replace_drop_equiv_new_then_drop silentModel 0 (by simp [silentModel])

/-- C8: `Deref` through the guard yields exactly the held value, a mutation
through `DerefMut` rewrites exactly the held value (so access through the
guard agrees with direct access to the value), and such a mutation neither
changes the lifecycle phase nor emits any cleanup invocation. -/
theorem deref_transparent {T : Type} (m : DropModel T) (v : T)
    (g : ReplaceDrop T) (f : T → T) :
    (ReplaceDrop.new v).deref = v ∧
      (g.modify f).deref = f g.deref ∧
      (ReplaceDrop.new v).modify f = ReplaceDrop.new (f v) ∧
      step m (Phase.holding g) (GuardOp.mutateOp f) =
        some (Phase.holding (g.modify f), []) := by
  exact ⟨rfl, rfl, rfl, rfl⟩

/-- C9: cloning a guard duplicates the held value with `T`'s clone into a
fresh guard; dropping both the original and the clone invokes the
substituted finalizer exactly twice — once on each copy — and the clone's
discharge trace is exactly that of a fresh guard over the duplicate,
independent of the original's. -/
theorem clone_independent_obligations {T : Type} (m : DropModel T)
    (cloneT : T → T) (v : T)
    (hm : ∀ u, finCount (m.rdDropBody u) = 0) :
    ((ReplaceDrop.new v).clone cloneT).deref = cloneT v ∧
      finCount ((ReplaceDrop.new v).dropGlue m ++
        ((ReplaceDrop.new v).clone cloneT).dropGlue m) = 2 ∧
      DropEvent.finalize v ∈ (ReplaceDrop.new v).dropGlue m ∧
      DropEvent.finalize (cloneT v) ∈
        ((ReplaceDrop.new v).clone cloneT).dropGlue m ∧
      ((ReplaceDrop.new v).clone cloneT).dropGlue m =
        newThenDrop m (cloneT v) := by
  refine ⟨rfl, ?_, ?_, ?_, rfl⟩
  · simp [ReplaceDrop.dropGlue, ReplaceDrop.new, ReplaceDrop.clone,
      ManuallyDrop.new, ManuallyDrop.dropGlue, finCount_append,
      DropEvent.isFinalize, hm v, hm (cloneT v)]
  · simp [ReplaceDrop.dropGlue, ReplaceDrop.new, ManuallyDrop.new,
      ManuallyDrop.dropGlue]
  · simp [ReplaceDrop.dropGlue, ReplaceDrop.new, ReplaceDrop.clone,
      ManuallyDrop.new, ManuallyDrop.dropGlue]

/-- Witness for C9 at the silent model, value `0` and the identity clone. -/
theorem clone_independent_obligations_witness :
    ((ReplaceDrop.new 0).clone id).deref = id (0 : Nat) ∧
      finCount ((ReplaceDrop.new (0 : Nat)).dropGlue silentModel ++
        ((ReplaceDrop.new 0).clone id).dropGlue silentModel) = 2 ∧
      DropEvent.finalize 0 ∈ (ReplaceDrop.new (0 : Nat)).dropGlue silentModel ∧
      DropEvent.finalize (id 0) ∈
        ((ReplaceDrop.new (0 : Nat)).clone id).dropGlue silentModel ∧
      ((ReplaceDrop.new (0 : Nat)).clone id).dropGlue silentModel =
        newThenDrop silentModel (id 0) :=
  clone_independent_obligations silentModel id 0 (fun _ => rfl)

/-- Sequential application of a list of mutations to a value. -/
def applyAll {T : Type} (fs : List (T → T)) (v : T) : T :=
  fs.foldl (fun a f => f a) v

/-- Sequential mutation of a guard's held value through `DerefMut`. -/
def ReplaceDrop.modifyAll {T : Type} (g : ReplaceDrop T)
    (fs : List (T → T)) : ReplaceDrop T :=
  fs.foldl ReplaceDrop.modify g

theorem modifyAll_new {T : Type} (fs : List (T → T)) (v : T) :
    (ReplaceDrop.new v).modifyAll fs = ReplaceDrop.new (applyAll fs v) := by
  induction fs generalizing v with
  | nil => rfl
  | cons f fs ih =>
    show ((ReplaceDrop.new v).modify f).modifyAll fs = _
    rw [show (ReplaceDrop.new v).modify f = ReplaceDrop.new (f v) from rfl,
      ih]
    rfl

/-- C10: the substituted finalizer acts on the value's state at discharge
time: after any sequence of mutations through `DerefMut`, dropping the guard
invokes the finalizer on the mutated value (the drop trace is that of a
fresh guard over the mutated value, beginning with the finalizer invocation
on it), and `into_inner` returns the mutated value. -/
theorem finalizer_sees_mutated_state {T : Type} (m : DropModel T) (v : T)
    (fs : List (T → T)) :
    ((ReplaceDrop.new v).modifyAll fs).dropGlue m =
        newThenDrop m (applyAll fs v) ∧
      ((ReplaceDrop.new v).modifyAll fs).into_inner = applyAll fs v ∧
      newThenDrop m (applyAll fs v) =
        DropEvent.finalize (applyAll fs v) ::
          m.rdDropBody (applyAll fs v) := by
  refine ⟨?_, ?_, ?_⟩
  · rw [modifyAll_new]; rfl
  · rw [modifyAll_new]; rfl
  · simp [newThenDrop, ReplaceDrop.dropGlue, ReplaceDrop.new,
      ManuallyDrop.new, ManuallyDrop.dropGlue]

/-! Concrete model of `examples/calling_drop.rs`: types `Inner` and
`Outer(Inner)` whose destructors and substituted finalizers print; effects
are the lists of printed lines. -/

/-- The unit struct `Inner` from the example. -/
inductive Inner where
  | mk
  deriving DecidableEq, Repr

/-- The struct `Outer(Inner)` from the example. -/
inductive Outer where
  | mk (i : Inner)
  deriving DecidableEq, Repr

/-- Full drop glue of a bare `Inner`: its `Drop::drop` body prints
`Inner!`; it has no fields, so nothing follows. -/
def Inner.dropOutput : Inner → List String :=
  fun _ => ["Inner!"]

/-- Body of `ReplaceDropImpl::drop` for `Inner`: prints `Inner 2!`. -/
def Inner.replaceDropOutput : Inner → List String :=
  fun _ => ["Inner 2!"]

/-- Full drop glue of a bare `Outer`: its `Drop::drop` body prints
`Outer!`, then the field of type `Inner` is dropped automatically. -/
def Outer.dropOutput : Outer → List String
  | .mk i => "Outer!" :: i.dropOutput

/-- Body of `ReplaceDropImpl::drop` for `Outer`: prints `Outer 2!`, then
`std::ptr::drop_in_place(&mut self.0)` runs `Inner`'s full drop glue, then
`ReplaceDropImpl::drop(&mut self.0)` runs `Inner`'s substituted finalizer
body, then `std::ptr::drop_in_place(self)` runs `Outer`'s own full drop
glue (which drops the `Inner` field again). -/
def Outer.replaceDropOutput : Outer → List String
  | .mk i =>
    "Outer 2!" ::
      (i.dropOutput ++ i.replaceDropOutput ++ Outer.dropOutput (.mk i))

/-- Drop glue of `ReplaceDrop<Outer>` under the printing semantics: the
guard's `Drop::drop` invokes `Outer`'s substituted finalizer on the held
value, and dropping the `ManuallyDrop<Outer>` field prints nothing. -/
def guardDropOutput (g : ReplaceDrop Outer) : List String :=
  Outer.replaceDropOutput g.inner.value ++ []

/-- The program `main` of `examples/calling_drop.rs`:
`let _ = ReplaceDrop::new(Outer(Inner));` — the temporary guard is dropped
immediately, and the printed lines are its drop glue's output. -/
def calling_drop_main : List String :=
  guardDropOutput (ReplaceDrop.new (Outer.mk Inner.mk))

/-- C5: discarding a guard around `Outer(Inner)` in the nested-substitution
example prints exactly `Outer 2!`, `Inner!`, `Inner 2!`, `Outer!`,
`Inner!`, in that order. -/
theorem calling_drop_main_output :
    calling_drop_main =
      ["Outer 2!", "Inner!", "Inner 2!", "Outer!", "Inner!"] := by
  rfl

/-! Concrete model of `tests::test` in `src/lib.rs`: `MyType<'a>(&'a mut u32)`
writes to the borrowed cell from its destructor and finalizer; effects are
functions on the cell's contents. -/

/-- The test type `MyType<'a>(&'a mut u32)`; the borrow of the cell is kept
implicit, the cell's contents being threaded as explicit state. -/
inductive MyType where
  | mk
  deriving DecidableEq, Repr

/-- Full drop glue of a bare `MyType` acting on the cell: its `Drop::drop`
body performs `*self.0 = 1`; the `&mut u32` field has no drop glue. -/
def MyType.dropCell : MyType → Nat → Nat :=
  fun _ _ => 1

/-- Body of `ReplaceDropImpl::drop` for `MyType` acting on the cell:
`*self.0 = 5`. -/
def MyType.replaceDropCell : MyType → Nat → Nat :=
  fun _ _ => 5

/-- Drop glue of `ReplaceDrop<MyType>` acting on the cell: the guard's
`Drop::drop` invokes the substituted finalizer on the held value, and
dropping the `ManuallyDrop<MyType>` field leaves the cell untouched. -/
def guardDropCell (g : ReplaceDrop MyType) : Nat → Nat :=
  fun c => g.inner.value.replaceDropCell c

/-- The free function `replace_drop` specialized to `MyType`, acting on the
cell: `let _ = ReplaceDrop::new(val);` drops the temporary guard. -/
def replace_dropCell (val : MyType) : Nat → Nat :=
  guardDropCell (ReplaceDrop.new val)

/-- C6: with the cell holding any value, dropping
`ReplaceDrop::new(MyType(&mut t))` leaves the cell at 5, dropping a bare
`MyType(&mut t)` leaves it at 1, and `replace_drop(MyType(&mut t))` leaves
it at 5 — as asserted by `tests::test`. -/
theorem my_type_cell_values (c : Nat) :
    guardDropCell (ReplaceDrop.new MyType.mk) c = 5 ∧
      MyType.dropCell MyType.mk c = 1 ∧
      replace_dropCell MyType.mk c = 5 :=
  ⟨rfl, rfl, rfl⟩

end ReplaceDropCrate
